import Mathlib

/-!
Verification of the input-collection engine of the meow-inquirer package
(src/collect-input.ts, here called part_001) against its natural-language
specification.

The embedding is shallow and functional:

* values flowing through the engine (raw CLI flag values, positional
  arguments, prompted answers, accumulated input values) are strings;
* the accumulated input object is an association list in insertion order,
  mirroring a JS object whose keys are added by assignment and removed
  by the delete operator;
* the schema capability is its acceptance predicate (the S.is check used
  by getValueFromCLIFlagsOrArgs); the decode side lives inside the prompt
  capability (section 4.4 of the spec: a prompted value is schema-valid by
  construction), so the prompt module is an oracle from prompt descriptor
  to answered value;
* side effects (print calls, prompt invocations) are reified as a trace of
  events, and invocations of the dynamic-context provider are counted, so
  that the claims about notices, prompting and provider recomputation are
  statements about the trace;
* the two throw sites (O.getOrThrow on a missing dynamic context) become
  an Except error.
-/

namespace MeowInquirer

/-- Values handled by the engine (CLI flag values, positional arguments,
prompted answers). -/
abbrev Value := String

/-- The schema capability as consumed by the engine: the acceptance
predicate used on CLI-supplied raw values (S.is in the source). -/
structure Schema where
  is : Value → Bool

/-- Condition attached to a state-mutating (value) stage, from
input-spec.ts: a description (used only for help-text generation in
cli-args.ts) and the isApplicable callback. -/
structure ConditionWithDescription (Ctx : Type) where
  description : String
  isApplicable : Ctx → Bool

/-- The message of a message stage: either a literal string or a function
of the dynamic context returning a string or nothing (undefined). -/
inductive StageMessage (Ctx : Type) where
  | literal (s : String)
  | dynamic (f : Ctx → Option String)

/-- One property of the input specification (input-spec.ts
InputSpecProperty): either a message stage or a value (state-mutating)
stage.  The flag field of the source is an AnyFlag descriptor whose only
role in the engine is presence (flag name lookup uses the field name), so
it is embedded as a Bool.  The prompt descriptor is opaque to the engine
and embedded as a string fed to the prompt oracle. -/
inductive InputSpecProperty (Ctx : Type) where
  | messageSpec (orderNumber : Int) (message : StageMessage Ctx)
  | validationSpec (orderNumber : Int) (schema : Schema) (prompt : String)
      (flag : Bool) (condition : Option (ConditionWithDescription Ctx))

/-- Order number of a stage descriptor (CommonSpec.orderNumber). -/
def InputSpecProperty.orderNumber {Ctx : Type} : InputSpecProperty Ctx → Int
  | .messageSpec n _ => n
  | .validationSpec n _ _ _ _ => n

/-- An input specification: the entries of the record, in insertion
order. -/
abbrev InputSpec (Ctx : Type) := List (String × InputSpecProperty Ctx)

/-- The CLIArgsInfo union of collect-input.ts: either the still-open
flags/positional snapshot (InternalCLIArgsResult), or the closed HashSet
of field names already claimed from the CLI. -/
inductive CLIArgsInfo where
  | snapshot (flags : List (String × Value)) (input : List Value)
  | closed (names : List String)
deriving DecidableEq, Repr

/-- Trace events: each print call of the engine, tagged by which call
site produced it, plus an event recording every invocation of the prompt
capability. -/
inductive Event where
  | msgStagePrinted (s : String)
  | notReusingCLI (field : String)
  | usingCLIValue (field : String) (value : Value)
  | invalidCLIWarning (field : String) (hasFlag : Bool)
  | promptInvoked (field : String)
  | fieldErrorPrinted (field : String) (msg : String)
  | internalErrorPrinted (msg : String)
deriving DecidableEq, Repr

/-- The one genuine throw of the engine: O.getOrThrow applied to a
missing dynamic context, from handleStageMessage (dynamic message) and
handleStageStateMutation (condition evaluation). -/
inductive EngineError where
  | contextMissing
deriving DecidableEq, Repr

/-- Result of handling one value stage (StageHandlingResult of the
source): the value and whether it came from the CLI. -/
structure StageHandlingResult where
  value : Value
  fromCLI : Bool
deriving DecidableEq, Repr

/-- CLI source resolution (getValueFromCLIFlagsOrArgs).  On a closed
record every lookup yields none, with a one-time notice when the field is
a member of the closed set.  On an open snapshot, the raw value is the
flag value when a flag descriptor is present, else the first positional
argument (input[0]); a schema-accepted value is used (with a notice), a
rejected one degrades to none with a warning. -/
def getValueFromCLIFlagsOrArgs (valueName : String) (schema : Schema)
    (flag : Bool) (cliArgs : CLIArgsInfo) : Option Value × List Event :=
  match cliArgs with
  | CLIArgsInfo.closed cliArgsNames =>
      (none,
        if valueName ∈ cliArgsNames then [Event.notReusingCLI valueName]
        else [])
  | CLIArgsInfo.snapshot flags input =>
      match (if flag then flags.lookup valueName else input.head?) with
      | none => (none, [])
      | some value =>
          if schema.is value then
            (some value, [Event.usingCLIValue valueName value])
          else
            (none, [Event.invalidCLIWarning valueName flag])

/-- Prompt resolution (promptValueFromUser): delegates to the prompt
capability, which re-asks until the schema decoder accepts, and returns
the answered value.  The oracle maps the prompt descriptor to that
value. -/
def promptValueFromUser (promptModule : String → Value)
    (prompt : String) : Value :=
  promptModule prompt

/-- Message-stage handling (handleStageMessage): resolve the message
(calling the dynamic function throws when no context exists), print it
when it is a string, never produce a value. -/
def handleStageMessage {Ctx : Type} (message : StageMessage Ctx)
    (components : Option Ctx) : Except EngineError (List Event) := do
  let resolved ← match message with
    | StageMessage.literal s => Except.ok (some s)
    | StageMessage.dynamic f =>
        match components with
        | none => Except.error EngineError.contextMissing
        | some x => Except.ok (f x)
  Except.ok (match resolved with
    | some s => [Event.msgStagePrinted s]
    | none => [])

/-- Value-stage handling (handleStageStateMutation): evaluate the
condition (absent means true; evaluating it without a context throws);
when applicable, try CLI resolution and fall back to prompting; when
inapplicable, produce nothing.  Note that the inapplicable branch of the
source only prints when the isApplicable result itself is a string, which
the declared type (boolean) rules out, so the skip emits no event; the
condition description in particular is never printed here. -/
def handleStageStateMutation {Ctx : Type} (promptModule : String → Value)
    (valueName : String) (schema : Schema) (prompt : String) (flag : Bool)
    (condition : Option (ConditionWithDescription Ctx))
    (cliArgs : CLIArgsInfo) (components : Option Ctx) :
    Except EngineError (Option StageHandlingResult × List Event) := do
  let isApplicable ← match condition with
    | none => Except.ok true
    | some c =>
        match components with
        | none => Except.error EngineError.contextMissing
        | some x => Except.ok (c.isApplicable x)
  if isApplicable then
    match getValueFromCLIFlagsOrArgs valueName schema flag cliArgs with
    | (some value, events) =>
        Except.ok (some ⟨value, true⟩, events)
    | (none, events) =>
        Except.ok (some ⟨promptValueFromUser promptModule prompt, false⟩,
          events ++ [Event.promptInvoked valueName])
  else
    Except.ok (none, [])

/-- Dispatch over the two stage kinds (handleStage). -/
def handleStage {Ctx : Type} (promptModule : String → Value)
    (valueName : String) (stage : InputSpecProperty Ctx)
    (cliArgs : CLIArgsInfo) (components : Option Ctx) :
    Except EngineError (Option StageHandlingResult × List Event) :=
  match stage with
  | InputSpecProperty.messageSpec _ message => do
      let events ← handleStageMessage message components
      Except.ok (none, events)
  | InputSpecProperty.validationSpec _ schema prompt flag condition =>
      handleStageStateMutation promptModule valueName schema prompt flag
        condition cliArgs components

/-- The non-strict order on spec entries used by getInputSpecOrdered:
ascending order number. -/
def specOrderLE {Ctx : Type} (a b : String × InputSpecProperty Ctx) : Prop :=
  a.2.orderNumber ≤ b.2.orderNumber

/-- The corresponding strict order, used to state uniqueness of the
sorted sequence when order numbers are distinct. -/
def specOrderLT {Ctx : Type} (a b : String × InputSpecProperty Ctx) : Prop :=
  a.2.orderNumber < b.2.orderNumber

instance {Ctx : Type} : DecidableRel (@specOrderLE Ctx) :=
  fun a b => inferInstanceAs (Decidable (a.2.orderNumber ≤ b.2.orderNumber))

instance {Ctx : Type} : IsTotal (String × InputSpecProperty Ctx) specOrderLE :=
  ⟨fun a b => Int.le_total a.2.orderNumber b.2.orderNumber⟩

instance {Ctx : Type} : IsTrans (String × InputSpecProperty Ctx) specOrderLE :=
  ⟨fun _ _ _ h h' => le_trans h h'⟩

instance {Ctx : Type} : IsAntisymm (String × InputSpecProperty Ctx) specOrderLT :=
  ⟨fun _ _ h h' => absurd (lt_trans h h') (lt_irrefl _)⟩

instance {Ctx : Type} : IsTrans (String × InputSpecProperty Ctx) specOrderLT :=
  ⟨fun _ _ _ h h' => lt_trans h h'⟩

/-- Stage ordering (getInputSpecOrdered): the record entries, stably
sorted ascending by order number.  The source sorts the entries with a
stable sort under the contramapped number order; the embedding uses
insertion sort, which is stable. -/
def getInputSpecOrdered {Ctx : Type} (stages : InputSpec Ctx) :
    InputSpec Ctx :=
  List.insertionSort specOrderLE stages

/-- State carried through one Stage Processor pass (the local variables
of collectInput): the accumulated input, the current dynamic context, the
set of fields claimed from the CLI in this pass, the event trace so far
and the number of invocations of the dynamic-context provider. -/
structure PassState (Ctx : Type) where
  values : List (String × Value)
  dynCtx : Option Ctx
  cliArgsSet : List String
  events : List Event
  dynCalls : Nat
deriving DecidableEq

/-- The body of the stage loop of collectInput for one stage: skip a
stage whose name is already collected; otherwise handle it, and when it
yields a value, append it to the accumulated input, recompute the dynamic
context if it is still absent, and record a CLI claim when the value came
from the CLI. -/
def processStage {Ctx : Type} (promptModule : String → Value)
    (getDynamicValueInput : List (String × Value) → Option Ctx)
    (cliArgs : CLIArgsInfo) (st : PassState Ctx)
    (stage : String × InputSpecProperty Ctx) :
    Except EngineError (PassState Ctx) :=
  if (st.values.lookup stage.1).isSome then Except.ok st
  else do
    let (result, events) ←
      handleStage promptModule stage.1 stage.2 cliArgs st.dynCtx
    match result with
    | none => Except.ok { st with events := st.events ++ events }
    | some r =>
        let values := st.values ++ [(stage.1, r.value)]
        let (dynCtx, dynCalls) :=
          match st.dynCtx with
          | some c => (some c, st.dynCalls)
          | none => (getDynamicValueInput values, st.dynCalls + 1)
        Except.ok
          { values := values
            dynCtx := dynCtx
            cliArgsSet :=
              if r.fromCLI then st.cliArgsSet ++ [stage.1] else st.cliArgsSet
            events := st.events ++ events
            dynCalls := dynCalls }

/-- One Stage Processor pass (collectInput): obtain the dynamic context
from the provider, then fold the stage handler over the ordered stages,
returning the updated accumulated input, the CLI-claim set of the pass,
the event trace and the provider invocation count. -/
def collectInput {Ctx : Type} (promptModule : String → Value)
    (spec : InputSpec Ctx) (cliArgs : CLIArgsInfo)
    (values : List (String × Value))
    (getDynamicValueInput : List (String × Value) → Option Ctx) :
    Except EngineError (PassState Ctx) :=
  (getInputSpecOrdered spec).foldlM
    (processStage promptModule getDynamicValueInput cliArgs)
    { values := values
      dynCtx := getDynamicValueInput values
      cliArgsSet := []
      events := []
      dynCalls := 1 }

/-- Verdict of the external final validator (InputValidator): a
validated value, a list of per-field errors, or a single string marking a
structural/internal error. -/
inductive ValidationResult (T : Type) where
  | validated (t : T)
  | fieldErrors (errs : List (String × String))
  | internalError (msg : String)

/-- The mutable state of the collection loop: the CLI-claim record and
the accumulated input. -/
structure LoopState where
  cliArgs : CLIArgsInfo
  input : List (String × Value)
deriving DecidableEq, Repr

/-- Outcome of one iteration of the collection loop: done with the
validated value, or continue with an updated state; both carry the events
of the iteration and the provider invocation count of its pass. -/
inductive StepResult (T : Type) where
  | done (t : T) (events : List Event) (dynCalls : Nat)
  | next (s : LoopState) (events : List Event) (dynCalls : Nat)
deriving DecidableEq

/-- One iteration of the do/while loop of the default export: run a pass,
hand the accumulated input to the final validator, and react to the
verdict.  Per-field errors are printed and the offending fields deleted,
and an open CLI-claim record is closed over the fields claimed in this
pass; a structural error is printed and both the accumulated input and
the CLI-claim record are wiped, the latter to an EMPTY open snapshot. -/
def buildValidatedInputStep {Ctx T : Type} (promptModule : String → Value)
    (spec : InputSpec Ctx)
    (getDynamicValueInput : List (String × Value) → Option Ctx)
    (inputValidator : List (String × Value) → ValidationResult T)
    (s : LoopState) : Except EngineError (StepResult T) := do
  let pass ←
    collectInput promptModule spec s.cliArgs s.input getDynamicValueInput
  match inputValidator pass.values with
  | ValidationResult.fieldErrors errs =>
      Except.ok (StepResult.next
        { cliArgs :=
            match s.cliArgs with
            | CLIArgsInfo.closed names => CLIArgsInfo.closed names
            | CLIArgsInfo.snapshot _ _ => CLIArgsInfo.closed pass.cliArgsSet
          input :=
            errs.foldl (fun acc e => acc.filter (fun p => p.1 ≠ e.1))
              pass.values }
        (pass.events ++ errs.map (fun e => Event.fieldErrorPrinted e.1 e.2))
        pass.dynCalls)
  | ValidationResult.internalError msg =>
      Except.ok (StepResult.next
        { cliArgs := CLIArgsInfo.snapshot [] [], input := [] }
        (pass.events ++ [Event.internalErrorPrinted msg])
        pass.dynCalls)
  | ValidationResult.validated t =>
      Except.ok (StepResult.done t pass.events pass.dynCalls)

/-- The collection loop (default export of collect-input.ts), run with
explicit fuel since termination depends on the external validator.  The
result carries the validated value when the loop finished within the
fuel, the concatenated event trace, and the total number of
dynamic-context provider invocations. -/
def buildValidatedInput {Ctx T : Type} (promptModule : String → Value)
    (spec : InputSpec Ctx)
    (getDynamicValueInput : List (String × Value) → Option Ctx)
    (inputValidator : List (String × Value) → ValidationResult T) :
    Nat → LoopState → Except EngineError (Option T × List Event × Nat)
  | 0, _ => Except.ok (none, [], 0)
  | fuel + 1, s => do
      match ← buildValidatedInputStep promptModule spec getDynamicValueInput
          inputValidator s with
      | StepResult.done t events dynCalls =>
          Except.ok (some t, events, dynCalls)
      | StepResult.next s' events dynCalls => do
          let (r, events', dynCalls') ←
            buildValidatedInput promptModule spec getDynamicValueInput
              inputValidator fuel s'
          Except.ok (r, events ++ events', dynCalls + dynCalls')

/-- Reduction of bind on a successful Except value. -/
theorem okBind {e a b : Type} (x : a) (f : a → Except e b) :
    ((Except.ok x : Except e a) >>= f) = f x := rfl

/-- Applicability of a value stage under a dynamic context: the condition
is absent, or it is present together with a context on which isApplicable
returns true. -/
def Applicable {Ctx : Type} (condition : Option (ConditionWithDescription Ctx))
    (components : Option Ctx) : Prop :=
  condition = none ∨
    ∃ c x, condition = some c ∧ components = some x ∧ c.isApplicable x = true

/-- An applicable value stage reduces to CLI resolution with prompt
fallback. -/
theorem handleStageStateMutation_applicable {Ctx : Type} (pm : String → Value)
    (name : String) (schema : Schema) (prompt : String) (flag : Bool)
    (cliArgs : CLIArgsInfo)
    {condition : Option (ConditionWithDescription Ctx)} {components : Option Ctx}
    (h : Applicable condition components) :
    handleStageStateMutation pm name schema prompt flag condition cliArgs
        components =
      (match getValueFromCLIFlagsOrArgs name schema flag cliArgs with
        | (some value, events) => Except.ok (some ⟨value, true⟩, events)
        | (none, events) =>
            Except.ok (some ⟨promptValueFromUser pm prompt, false⟩,
              events ++ [Event.promptInvoked name])) := by
  rcases h with h | ⟨c, x, hc, hx, happ⟩
  · subst h; rfl
  · subst hc; subst hx
    simp only [handleStageStateMutation, happ]
    rfl

/-- When an unresolved stage is handled and yields a value, processStage
appends the field, extends the trace, and claims the field for the CLI
exactly when the value came from the CLI. -/
theorem processStage_resolved {Ctx : Type} {pm : String → Value}
    {getDyn : List (String × Value) → Option Ctx} {cliArgs : CLIArgsInfo}
    {st : PassState Ctx} {name : String} {stage : InputSpecProperty Ctx}
    {r : StageHandlingResult} {events : List Event}
    (hun : (st.values.lookup name).isSome = false)
    (hh : handleStage pm name stage cliArgs st.dynCtx =
      Except.ok (some r, events)) :
    ∃ st', processStage pm getDyn cliArgs st (name, stage) = Except.ok st' ∧
      st'.values = st.values ++ [(name, r.value)] ∧
      st'.cliArgsSet =
        (if r.fromCLI then st.cliArgsSet ++ [name] else st.cliArgsSet) ∧
      st'.events = st.events ++ events := by
  cases hctx : st.dynCtx with
  | none =>
      refine ⟨{ values := st.values ++ [(name, r.value)],
                dynCtx := getDyn (st.values ++ [(name, r.value)]),
                cliArgsSet :=
                  if r.fromCLI then st.cliArgsSet ++ [name] else st.cliArgsSet,
                events := st.events ++ events,
                dynCalls := st.dynCalls + 1 }, ?_, rfl, rfl, rfl⟩
      simp only [processStage, hun, Bool.false_eq_true, if_false, hctx,
        hctx ▸ hh, okBind]
  | some c =>
      refine ⟨{ values := st.values ++ [(name, r.value)],
                dynCtx := some c,
                cliArgsSet :=
                  if r.fromCLI then st.cliArgsSet ++ [name] else st.cliArgsSet,
                events := st.events ++ events,
                dynCalls := st.dynCalls }, ?_, rfl, rfl, rfl⟩
      simp only [processStage, hun, Bool.false_eq_true, if_false, hctx,
        hctx ▸ hh, okBind]

/-- CLI resolution never emits a prompt event. -/
theorem getValueFromCLIFlagsOrArgs_no_prompt_event (valueName f : String)
    (schema : Schema) (flag : Bool) (cliArgs : CLIArgsInfo) :
    Event.promptInvoked f ∉
      (getValueFromCLIFlagsOrArgs valueName schema flag cliArgs).2 := by
  cases cliArgs with
  | closed names =>
      by_cases h : valueName ∈ names <;>
        simp [getValueFromCLIFlagsOrArgs, h]
  | snapshot flags input =>
      cases hv : (if flag then flags.lookup valueName else input.head?) with
      | none => simp [getValueFromCLIFlagsOrArgs, hv]
      | some v =>
          by_cases hs : schema.is v <;>
            simp [getValueFromCLIFlagsOrArgs, hv, hs]

/-- C2: once the CLI-claim record is closed over a set containing a
field, handling that field's (applicable, still-unresolved) value stage
prints the single not-reusing notice, never re-accepts the raw CLI value
(the closed record carries no raw values at all), does not claim the
field for the CLI, and resolves the field by prompting. -/
theorem c2_no_cli_reuse_after_rejection {Ctx : Type} (pm : String → Value)
    (getDyn : List (String × Value) → Option Ctx) (S : List String)
    (st : PassState Ctx) (name : String) (o : Int) (schema : Schema)
    (prompt : String) (flag : Bool)
    (cond : Option (ConditionWithDescription Ctx))
    (hmem : name ∈ S)
    (hun : (st.values.lookup name).isSome = false)
    (happ : Applicable cond st.dynCtx) :
    ∃ st', processStage pm getDyn (CLIArgsInfo.closed S) st
        (name, InputSpecProperty.validationSpec o schema prompt flag cond) =
        Except.ok st' ∧
      st'.values = st.values ++ [(name, promptValueFromUser pm prompt)] ∧
      st'.cliArgsSet = st.cliArgsSet ∧
      st'.events = st.events ++
        [Event.notReusingCLI name, Event.promptInvoked name] := by
  have hh : handleStage pm name
      (InputSpecProperty.validationSpec o schema prompt flag cond)
      (CLIArgsInfo.closed S) st.dynCtx =
      Except.ok (some ⟨promptValueFromUser pm prompt, false⟩,
        [Event.notReusingCLI name, Event.promptInvoked name]) := by
    show handleStageStateMutation pm name schema prompt flag cond
        (CLIArgsInfo.closed S) st.dynCtx = _
    rw [handleStageStateMutation_applicable pm name schema prompt flag
      (CLIArgsInfo.closed S) happ]
    simp [getValueFromCLIFlagsOrArgs, hmem]
  obtain ⟨st', h1, h2, h3, h4⟩ := processStage_resolved hun hh
  exact ⟨st', h1, h2, by simpa using h3, h4⟩

/-- C6: with an open snapshot containing a schema-valid value for a
flagged field, handling the (applicable, unresolved) stage stores exactly
that value, claims the field for the CLI, emits only the usage notice,
and does not invoke the prompt capability for the field. -/
theorem c6_cli_precedence {Ctx : Type} (pm : String → Value)
    (getDyn : List (String × Value) → Option Ctx)
    (flags : List (String × Value)) (input : List Value)
    (st : PassState Ctx) (name : String) (o : Int) (schema : Schema)
    (prompt : String) (cond : Option (ConditionWithDescription Ctx)) (v : Value)
    (hun : (st.values.lookup name).isSome = false)
    (happ : Applicable cond st.dynCtx)
    (hflag : flags.lookup name = some v)
    (hvalid : schema.is v = true) :
    ∃ st', processStage pm getDyn (CLIArgsInfo.snapshot flags input) st
        (name, InputSpecProperty.validationSpec o schema prompt true cond) =
        Except.ok st' ∧
      st'.values = st.values ++ [(name, v)] ∧
      st'.cliArgsSet = st.cliArgsSet ++ [name] ∧
      st'.events = st.events ++ [Event.usingCLIValue name v] ∧
      (Event.promptInvoked name ∈ st'.events ↔
        Event.promptInvoked name ∈ st.events) := by
  have hh : handleStage pm name
      (InputSpecProperty.validationSpec o schema prompt true cond)
      (CLIArgsInfo.snapshot flags input) st.dynCtx =
      Except.ok (some ⟨v, true⟩, [Event.usingCLIValue name v]) := by
    show handleStageStateMutation pm name schema prompt true cond
        (CLIArgsInfo.snapshot flags input) st.dynCtx = _
    rw [handleStageStateMutation_applicable pm name schema prompt true
      (CLIArgsInfo.snapshot flags input) happ]
    simp [getValueFromCLIFlagsOrArgs, hflag, hvalid]
  obtain ⟨st', h1, h2, h3, h4⟩ := processStage_resolved hun hh
  refine ⟨st', h1, h2, by simpa using h3, h4, ?_⟩
  simp [h4]

/-- C7: when CLI resolution yields no usable value for an applicable
stage, the handler does not throw: it returns the prompted value (not
CLI-claimed), the prompt capability is invoked exactly once for the
field, and in the schema-invalid case the trace is exactly the
warning. -/
theorem c7_fallback_prompts_once {Ctx : Type} (pm : String → Value)
    (name : String) (schema : Schema) (prompt : String) (flag : Bool)
    (cond : Option (ConditionWithDescription Ctx)) (components : Option Ctx)
    (flags : List (String × Value)) (input : List Value)
    (happ : Applicable cond components)
    (hnone : (getValueFromCLIFlagsOrArgs name schema flag
      (CLIArgsInfo.snapshot flags input)).1 = none) :
    handleStageStateMutation pm name schema prompt flag cond
        (CLIArgsInfo.snapshot flags input) components =
      Except.ok (some ⟨promptValueFromUser pm prompt, false⟩,
        (getValueFromCLIFlagsOrArgs name schema flag
          (CLIArgsInfo.snapshot flags input)).2 ++
          [Event.promptInvoked name]) ∧
    ((getValueFromCLIFlagsOrArgs name schema flag
        (CLIArgsInfo.snapshot flags input)).2 ++
        [Event.promptInvoked name]).count (Event.promptInvoked name) = 1 ∧
    (∀ v, (if flag then flags.lookup name else input.head?) = some v →
      schema.is v = false →
      (getValueFromCLIFlagsOrArgs name schema flag
        (CLIArgsInfo.snapshot flags input)).2 =
        [Event.invalidCLIWarning name flag]) := by
  refine ⟨?_, ?_, ?_⟩
  · rw [handleStageStateMutation_applicable pm name schema prompt flag
      (CLIArgsInfo.snapshot flags input) happ]
    rcases hg : getValueFromCLIFlagsOrArgs name schema flag
        (CLIArgsInfo.snapshot flags input) with ⟨v?, evs⟩
    rw [hg] at hnone
    simp only at hnone
    subst hnone
    rfl
  · rw [List.count_append]
    have hnp := getValueFromCLIFlagsOrArgs_no_prompt_event name name schema flag
      (CLIArgsInfo.snapshot flags input)
    rw [List.count_eq_zero.mpr hnp]
    simp
  · intro v hv hs
    simp [getValueFromCLIFlagsOrArgs, hv, hs]

/-- C8: a function-valued message, and a value stage carrying a
condition, both fail loudly (context-missing error) when evaluated while
no dynamic context exists, instead of treating the message as empty or
the stage as inapplicable. -/
theorem c8_context_missing_fails_loudly {Ctx : Type} (pm : String → Value)
    (name : String) (o : Int) (f : Ctx → Option String) (schema : Schema)
    (prompt : String) (flag : Bool) (c : ConditionWithDescription Ctx)
    (cliArgs : CLIArgsInfo) :
    handleStage pm name
        (InputSpecProperty.messageSpec o (StageMessage.dynamic f)) cliArgs
        none = Except.error EngineError.contextMissing ∧
    handleStage pm name
        (InputSpecProperty.validationSpec o schema prompt flag (some c))
        cliArgs none = Except.error EngineError.contextMissing :=
  ⟨rfl, rfl⟩

/-- C3 counterexample: a value stage whose condition carries the
description string cond-desc and evaluates to false (with the dynamic
context present) is skipped with an EMPTY event trace: the description is
never surfaced through the output capability, contrary to the claim.
(The description field is read only by the help-text generator in
cli-args.ts.)  The resulting pass state also shows the field absent and
neither CLI nor prompt resolution triggered. -/
theorem c3_counterexample :
    collectInput (fun _ => "p")
      [("b", InputSpecProperty.validationSpec 0 ⟨fun _ => true⟩ "bQ" false
        (some ⟨"cond-desc", fun (_ : Unit) => false⟩))]
      (CLIArgsInfo.snapshot [] []) [] (fun _ => some ()) =
    Except.ok
      { values := [], dynCtx := some (), cliArgsSet := [], events := [],
        dynCalls := 1 } := rfl

/-- C3 amended: whenever a stage's condition evaluates to false under the
present dynamic context, the stage is skipped silently for the pass: the
pass state is returned unchanged — the field stays absent, no event is
emitted (in particular the condition's description is not surfaced), and
neither CLI nor prompt resolution is triggered. -/
theorem c3_amended_inapplicable_stage_skipped_silently {Ctx : Type}
    (pm : String → Value) (getDyn : List (String × Value) → Option Ctx)
    (cliArgs : CLIArgsInfo) (st : PassState Ctx) (name : String) (o : Int)
    (schema : Schema) (prompt : String) (flag : Bool)
    (c : ConditionWithDescription Ctx) (x : Ctx)
    (hun : (st.values.lookup name).isSome = false)
    (hctx : st.dynCtx = some x)
    (hfalse : c.isApplicable x = false) :
    processStage pm getDyn cliArgs st
      (name, InputSpecProperty.validationSpec o schema prompt flag (some c)) =
      Except.ok st := by
  have hh : handleStage pm name
      (InputSpecProperty.validationSpec o schema prompt flag (some c))
      cliArgs st.dynCtx = Except.ok (none, []) := by
    rw [hctx]
    show handleStageStateMutation pm name schema prompt flag (some c)
      cliArgs (some x) = _
    simp only [handleStageStateMutation, hfalse]
    rfl
  simp only [processStage, hun, Bool.false_eq_true, if_false, hh, okBind,
    List.append_nil]

/-- C4 counterexample: two flagless value stages in one specification,
with positional arguments x and y available, BOTH resolve to the first
positional x; the second stage does not draw on the next unclaimed
positional y, contrary to the claim. -/
theorem c4_counterexample :
    collectInput (fun _ => "p")
      [("a", InputSpecProperty.validationSpec 0 ⟨fun _ => true⟩ "aQ" false
        none),
       ("b", InputSpecProperty.validationSpec 1 ⟨fun _ => true⟩ "bQ" false
        none)]
      (CLIArgsInfo.snapshot [] ["x", "y"]) [] (fun _ => some ()) =
    Except.ok
      { values := [("a", "x"), ("b", "x")], dynCtx := some (),
        cliArgsSet := ["a", "b"],
        events := [Event.usingCLIValue "a" "x", Event.usingCLIValue "b" "x"],
        dynCalls := 1 } := rfl

/-- C4 amended: while the CLI-claim record is an open snapshot, CLI
resolution for a flagless value stage always reads the FIRST positional
argument; positionals are never consumed, so the value resolved is the
same for every flagless stage name, rather than successive stages drawing
on successive positionals. -/
theorem c4_amended_flagless_reads_first_positional (name otherName : String)
    (schema : Schema) (flags : List (String × Value)) (input : List Value) :
    ((getValueFromCLIFlagsOrArgs name schema false
        (CLIArgsInfo.snapshot flags input)).1 =
      input.head?.bind (fun v => if schema.is v then some v else none)) ∧
    ((getValueFromCLIFlagsOrArgs name schema false
        (CLIArgsInfo.snapshot flags input)).1 =
      (getValueFromCLIFlagsOrArgs otherName schema false
        (CLIArgsInfo.snapshot flags input)).1) := by
  have key : ∀ n : String,
      (getValueFromCLIFlagsOrArgs n schema false
        (CLIArgsInfo.snapshot flags input)).1 =
      input.head?.bind (fun v => if schema.is v then some v else none) := by
    intro n
    cases hv : input.head? with
    | none => simp [getValueFromCLIFlagsOrArgs, hv]
    | some v =>
        by_cases hs : schema.is v <;>
          simp [getValueFromCLIFlagsOrArgs, hv, hs]
  exact ⟨key name, (key name).trans (key otherName).symm⟩

/-- C1 amended (general form): when the final validator returns a single
string, the loop clears the whole accumulated input AND resets the
CLI-claim record to an EMPTY open snapshot — not to one seeded from the
original raw CLI source — after printing the internal-error notice. -/
theorem c1_amended_structural_reset_to_empty_snapshot {Ctx T : Type}
    (pm : String → Value) (spec : InputSpec Ctx)
    (getDyn : List (String × Value) → Option Ctx)
    (validator : List (String × Value) → ValidationResult T) (s : LoopState)
    (pass : PassState Ctx) (msg : String)
    (hpass : collectInput pm spec s.cliArgs s.input getDyn = Except.ok pass)
    (hval : validator pass.values = ValidationResult.internalError msg) :
    buildValidatedInputStep pm spec getDyn validator s =
      Except.ok (StepResult.next
        { cliArgs := CLIArgsInfo.snapshot [] [], input := [] }
        (pass.events ++ [Event.internalErrorPrinted msg]) pass.dynCalls) := by
  simp only [buildValidatedInputStep, hpass, okBind, hval]

/-- C1 counterexample: the flag value Ada is present in the original raw
CLI source and accepted on the first pass; the validator then reports a
structural/internal error.  On the next pass the engine does NOT
re-resolve Ada from the original CLI source (the reset snapshot is
empty): the field is prompted instead, yielding Grace.  This refutes the
claim that the reset record is seeded from the original raw CLI source
making the original values eligible for re-resolution. -/
theorem c1_counterexample :
    buildValidatedInput (fun _ => "Grace")
      [("name", InputSpecProperty.validationSpec 0 ⟨fun _ => true⟩ "nameQ"
        true none)]
      (fun (_ : List (String × Value)) => some ())
      (fun v =>
        if v.lookup "name" = some "Ada" then ValidationResult.internalError "boom"
        else ValidationResult.validated v)
      2 { cliArgs := CLIArgsInfo.snapshot [("name", "Ada")] [], input := [] } =
    Except.ok (some [("name", "Grace")],
      [Event.usingCLIValue "name" "Ada", Event.internalErrorPrinted "boom",
       Event.promptInvoked "name"], 2) := rfl

/-- Reduction of bind on a failed Except value. -/
theorem errorBind {e a b : Type} (err : e) (f : a → Except e b) :
    ((Except.error err : Except e a) >>= f) = Except.error err := rfl

/-- A property preserved by every successful step of an Except-valued
fold holds for the final state of a successful fold. -/
theorem foldlM_except_inv {s a e : Type} (f : s → a → Except e s)
    (P : s → Prop)
    (hf : ∀ st x st', P st → f st x = Except.ok st' → P st') :
    ∀ (l : List a) (st st' : s), P st →
      l.foldlM f st = Except.ok st' → P st'
  | [], st, st', hP, h => by
      rw [List.foldlM_nil] at h
      cases h
      exact hP
  | x :: l, st, st', hP, h => by
      rw [List.foldlM_cons] at h
      cases hfx : f st x with
      | error err =>
          rw [hfx, errorBind] at h
          exact Except.noConfusion h
      | ok st₁ =>
          rw [hfx, okBind] at h
          exact foldlM_except_inv f P hf l st₁ st' (hf st x st₁ hP hfx) h

/-- A pass step never discards a present dynamic context and never calls
the provider once the context is present. -/
theorem processStage_ctx_present {Ctx : Type} {pm : String → Value}
    {getDyn : List (String × Value) → Option Ctx} {cliArgs : CLIArgsInfo}
    {c : Ctx} {st st' : PassState Ctx} {p : String × InputSpecProperty Ctx}
    (hctx : st.dynCtx = some c)
    (h : processStage pm getDyn cliArgs st p = Except.ok st') :
    st'.dynCtx = some c ∧ st'.dynCalls = st.dynCalls := by
  by_cases hl : (st.values.lookup p.1).isSome
  · simp only [processStage, hl, if_true] at h
    cases h
    exact ⟨hctx, rfl⟩
  · simp only [processStage, hl, Bool.false_eq_true, if_false] at h
    cases hh : handleStage pm p.1 p.2 cliArgs st.dynCtx with
    | error err =>
        rw [hh, errorBind] at h
        exact Except.noConfusion h
    | ok pr =>
        rw [hh, okBind] at h
        obtain ⟨res, evs⟩ := pr
        cases res with
        | none =>
            cases h
            exact ⟨hctx, rfl⟩
        | some r =>
            rw [hctx] at h
            cases h
            exact ⟨rfl, rfl⟩

/-- C5 amended: within one Stage Processor pass whose dynamic context is
already present at the start, the provider is invoked exactly once (the
unconditional invocation opening the pass) and the context is never
recomputed during the pass.  (Each new pass, however, re-invokes the
provider afresh; see the counterexample.) -/
theorem c5_amended_one_provider_call_when_present {Ctx : Type}
    (pm : String → Value) (spec : InputSpec Ctx) (cliArgs : CLIArgsInfo)
    (values : List (String × Value))
    (getDyn : List (String × Value) → Option Ctx) (c : Ctx)
    (pass : PassState Ctx)
    (hctx : getDyn values = some c)
    (hpass : collectInput pm spec cliArgs values getDyn = Except.ok pass) :
    pass.dynCalls = 1 ∧ pass.dynCtx = some c := by
  have base :
      (PassState.mk values (getDyn values) [] [] 1 : PassState Ctx).dynCtx =
        some c ∧
      (PassState.mk values (getDyn values) [] [] 1 : PassState Ctx).dynCalls
        = 1 := ⟨hctx, rfl⟩
  have inv := foldlM_except_inv
    (processStage pm getDyn cliArgs)
    (fun st => st.dynCtx = some c ∧ st.dynCalls = 1)
    (fun st x st' hP h => by
      obtain ⟨h1, h2⟩ := processStage_ctx_present hP.1 h
      exact ⟨h1, h2.trans hP.2⟩)
    (getInputSpecOrdered spec)
    (PassState.mk values (getDyn values) [] [] 1) pass base hpass
  exact ⟨inv.2, inv.1⟩

/-- C5 counterexample: a two-pass run in which the dynamic context is
present from the very first provider call of the first pass; the claim
says the provider is then not invoked again during the attempt, including
across later passes, so the total number of provider invocations would be
1 — but the engine invokes the provider at the start of EVERY pass, and
the run below makes 2 invocations. -/
theorem c5_counterexample :
    buildValidatedInput (fun _ => "p")
      [("a", InputSpecProperty.validationSpec 0 ⟨fun _ => true⟩ "aQ" true
        none)]
      (fun (_ : List (String × Value)) => some ())
      (fun v =>
        if v.lookup "a" = some "x" then ValidationResult.fieldErrors [("a", "no")]
        else ValidationResult.validated v)
      2 { cliArgs := CLIArgsInfo.snapshot [("a", "x")] [], input := [] } =
    Except.ok (some [("a", "p")],
      [Event.usingCLIValue "a" "x", Event.fieldErrorPrinted "a" "no",
       Event.notReusingCLI "a", Event.promptInvoked "a"], 2) := rfl

/-- With a closed CLI-claim record, an applicable value stage resolves by
prompting, with the not-reusing notice exactly when the field is a member
of the closed set. -/
theorem handleStageStateMutation_closed_applicable {Ctx : Type}
    (pm : String → Value) (name : String) (schema : Schema) (prompt : String)
    (flag : Bool) {cond : Option (ConditionWithDescription Ctx)}
    {components : Option Ctx} (S : List String)
    (happ : Applicable cond components) :
    handleStageStateMutation pm name schema prompt flag cond
        (CLIArgsInfo.closed S) components =
      Except.ok (some ⟨promptValueFromUser pm prompt, false⟩,
        (if name ∈ S then [Event.notReusingCLI name] else []) ++
          [Event.promptInvoked name]) := by
  rw [handleStageStateMutation_applicable pm name schema prompt flag
    (CLIArgsInfo.closed S) happ]
  by_cases hm : name ∈ S <;> simp [getValueFromCLIFlagsOrArgs, hm]

/-- A value stage whose condition evaluates to false yields no value and
no events. -/
theorem handleStageStateMutation_inapplicable {Ctx : Type}
    (pm : String → Value) (name : String) (schema : Schema) (prompt : String)
    (flag : Bool) (c : ConditionWithDescription Ctx) (x : Ctx)
    (cliArgs : CLIArgsInfo) (hfalse : c.isApplicable x = false) :
    handleStageStateMutation pm name schema prompt flag (some c) cliArgs
      (some x) = Except.ok (none, []) := by
  simp only [handleStageStateMutation, hfalse]
  rfl

/-- With a closed CLI-claim record, a successfully handled stage never
produces a CLI-sourced value and never emits a CLI-usage notice, and any
value it does produce was prompted for its field. -/
theorem handleStage_closed {Ctx : Type} {pm : String → Value} {name : String}
    {stage : InputSpecProperty Ctx} {S : List String}
    {components : Option Ctx} {res : Option StageHandlingResult}
    {evs : List Event}
    (h : handleStage pm name stage (CLIArgsInfo.closed S) components =
      Except.ok (res, evs)) :
    (∀ f v, Event.usingCLIValue f v ∉ evs) ∧
    (∀ r, res = some r → r.fromCLI = false ∧
      Event.promptInvoked name ∈ evs) := by
  cases stage with
  | messageSpec o msg =>
      cases msg with
      | literal s =>
          injection h with h'
          injection h' with hr he
          subst hr; subst he
          exact ⟨by intro f v hm; simp at hm, by intro r hr'; cases hr'⟩
      | dynamic f =>
          cases components with
          | none => exact Except.noConfusion h
          | some x =>
              cases hfx : f x with
              | none =>
                  simp only [handleStage, handleStageMessage, hfx, okBind,
                    Except.ok.injEq, Prod.mk.injEq] at h
                  obtain ⟨h1, h2⟩ := h
                  subst h1; subst h2
                  exact ⟨by intro f' v hm; simp at hm,
                    by intro r hr'; cases hr'⟩
              | some s =>
                  simp only [handleStage, handleStageMessage, hfx, okBind,
                    Except.ok.injEq, Prod.mk.injEq] at h
                  obtain ⟨h1, h2⟩ := h
                  subst h1; subst h2
                  exact ⟨by intro f' v hm; simp at hm,
                    by intro r hr'; cases hr'⟩
  | validationSpec o schema prompt flag cond =>
      have happlied : ∀ (happ : Applicable cond components),
          (∀ f v, Event.usingCLIValue f v ∉ evs) ∧
          (∀ r, res = some r → r.fromCLI = false ∧
            Event.promptInvoked name ∈ evs) := by
        intro happ
        rw [show handleStage pm name
            (InputSpecProperty.validationSpec o schema prompt flag cond)
            (CLIArgsInfo.closed S) components =
            handleStageStateMutation pm name schema prompt flag cond
              (CLIArgsInfo.closed S) components from rfl,
          handleStageStateMutation_closed_applicable pm name schema prompt
            flag S happ] at h
        injection h with h'
        injection h' with hr he
        subst hr; subst he
        refine ⟨?_, ?_⟩
        · intro f v hm
          by_cases hmem : name ∈ S <;> simp [hmem] at hm
        · intro r hr'
          injection hr' with hr''
          subst hr''
          exact ⟨rfl, by simp⟩
      cases cond with
      | none => exact happlied (Or.inl rfl)
      | some c =>
          cases components with
          | none => exact Except.noConfusion h
          | some x =>
              cases hca : c.isApplicable x with
              | true => exact happlied (Or.inr ⟨c, x, rfl, rfl, hca⟩)
              | false =>
                  rw [show handleStage pm name
                      (InputSpecProperty.validationSpec o schema prompt flag
                        (some c)) (CLIArgsInfo.closed S) (some x) =
                      handleStageStateMutation pm name schema prompt flag
                        (some c) (CLIArgsInfo.closed S) (some x) from rfl,
                    handleStageStateMutation_inapplicable pm name schema
                      prompt flag c x (CLIArgsInfo.closed S) hca] at h
                  injection h with h'
                  injection h' with hr he
                  subst hr; subst he
                  exact ⟨by intro f v hm; simp at hm,
                    by intro r hr'; cases hr'⟩

/-- The invariant maintained across a pass run against a closed CLI-claim
record: nothing is claimed from the CLI, no CLI-usage notice is emitted,
and every field added since the start of the pass was prompted. -/
def ClosedPassInv {Ctx : Type} (values₀ : List (String × Value))
    (st : PassState Ctx) : Prop :=
  st.cliArgsSet = [] ∧
  (∀ f v, Event.usingCLIValue f v ∉ st.events) ∧
  (∀ f, ((st.values.lookup f).isSome = true) →
    ((values₀.lookup f).isSome = true) ∨ Event.promptInvoked f ∈ st.events)

/-- One stage step against a closed CLI-claim record preserves the
closed-pass invariant. -/
theorem processStage_closed_inv {Ctx : Type} {pm : String → Value}
    {getDyn : List (String × Value) → Option Ctx} {S : List String}
    {st st' : PassState Ctx} {p : String × InputSpecProperty Ctx}
    (values₀ : List (String × Value))
    (hInv : ClosedPassInv values₀ st)
    (h : processStage pm getDyn (CLIArgsInfo.closed S) st p = Except.ok st') :
    ClosedPassInv values₀ st' := by
  obtain ⟨hset, hevs, hvals⟩ := hInv
  by_cases hl : (st.values.lookup p.1).isSome
  · simp only [processStage, hl, if_true] at h
    cases h
    exact ⟨hset, hevs, hvals⟩
  · simp only [processStage, hl, Bool.false_eq_true, if_false] at h
    cases hh : handleStage pm p.1 p.2 (CLIArgsInfo.closed S) st.dynCtx with
    | error err =>
        rw [hh, errorBind] at h
        exact Except.noConfusion h
    | ok pr =>
        rw [hh, okBind] at h
        obtain ⟨res, evs⟩ := pr
        obtain ⟨hnocli, hsome⟩ := handleStage_closed hh
        cases res with
        | none =>
            cases h
            refine ⟨hset, ?_, ?_⟩
            · intro f v hm
              rcases List.mem_append.mp hm with hm' | hm'
              · exact hevs f v hm'
              · exact hnocli f v hm'
            · intro f hf
              rcases hvals f hf with h' | h'
              · exact Or.inl h'
              · exact Or.inr (List.mem_append.mpr (Or.inl h'))
        | some r =>
            obtain ⟨hfromCLI, hprompt⟩ := hsome r rfl
            cases hctx : st.dynCtx <;> rw [hctx] at h <;> cases h <;>
              refine ⟨by simp [hfromCLI, hset], ?_, ?_⟩ <;>
              first
                | (intro f v hm
                   rcases List.mem_append.mp hm with hm' | hm'
                   · exact hevs f v hm'
                   · exact hnocli f v hm')
                | (intro f hf
                   rw [List.lookup_append] at hf
                   cases hcase : st.values.lookup f with
                   | some w =>
                       rcases hvals f (by simp [hcase]) with h' | h'
                       · exact Or.inl h'
                       · exact Or.inr (List.mem_append.mpr (Or.inl h'))
                   | none =>
                       rw [hcase] at hf
                       simp only [Option.none_or] at hf
                       have hfp : f = p.1 := by
                         by_cases hbe : f == p.1
                         · exact eq_of_beq hbe
                         · simp [List.lookup_cons, hbe] at hf
                       subst hfp
                       exact Or.inr (List.mem_append.mpr (Or.inr hprompt)))

/-- C10: after a pass whose verdict is field-level errors, an open
CLI-claim record is replaced by the closed set of exactly the fields
CLI-claimed during that pass (first conjunct); and against any closed
record a pass claims nothing from the CLI, emits no CLI-usage notice, and
prompt-sources every field it adds — including stages never previously
resolved (second conjunct). -/
theorem c10_closed_record_suppresses_cli {Ctx T : Type} (pm : String → Value)
    (spec : InputSpec Ctx)
    (getDyn : List (String × Value) → Option Ctx) :
    (∀ (validator : List (String × Value) → ValidationResult T)
       (s : LoopState) (fl : List (String × Value)) (inp : List Value)
       (pass : PassState Ctx) (errs : List (String × String)),
       s.cliArgs = CLIArgsInfo.snapshot fl inp →
       collectInput pm spec s.cliArgs s.input getDyn = Except.ok pass →
       validator pass.values = ValidationResult.fieldErrors errs →
       buildValidatedInputStep pm spec getDyn validator s =
         Except.ok (StepResult.next
           { cliArgs := CLIArgsInfo.closed pass.cliArgsSet
             input := errs.foldl
               (fun acc e => acc.filter (fun q => q.1 ≠ e.1)) pass.values }
           (pass.events ++
             errs.map (fun e => Event.fieldErrorPrinted e.1 e.2))
           pass.dynCalls)) ∧
    (∀ (S : List String) (values : List (String × Value))
       (pass : PassState Ctx),
       collectInput pm spec (CLIArgsInfo.closed S) values getDyn =
         Except.ok pass →
       pass.cliArgsSet = [] ∧
       (∀ f v, Event.usingCLIValue f v ∉ pass.events) ∧
       (∀ f, ((pass.values.lookup f).isSome = true) →
         ((values.lookup f).isSome = true) ∨
           Event.promptInvoked f ∈ pass.events)) := by
  constructor
  · intro validator s fl inp pass errs hcli hpass hval
    rw [hcli] at hpass
    simp only [buildValidatedInputStep, hcli, hpass, okBind, hval]
  · intro S values pass hpass
    have base : ClosedPassInv values
        (PassState.mk values (getDyn values) [] [] 1 : PassState Ctx) :=
      ⟨rfl, by intro f v hm; simp at hm, fun f hf => Or.inl hf⟩
    exact foldlM_except_inv
      (processStage pm getDyn (CLIArgsInfo.closed S))
      (ClosedPassInv values)
      (fun st x st' hP h => processStage_closed_inv values hP h)
      (getInputSpecOrdered spec)
      (PassState.mk values (getDyn values) [] [] 1) pass base hpass

/-- C9: stage ordering is sorted ascending by order number, is a
permutation of the specification entries (pure and deterministic by
construction), is stable — a pair of entries with equal order numbers
keeps its relative specification order — and for specifications with
pairwise-distinct order numbers the result is invariant under permuting
the insertion order of the entries. -/
theorem c9_stage_ordering {Ctx : Type} :
    (∀ s : InputSpec Ctx,
      List.Sorted specOrderLE (getInputSpecOrdered s)) ∧
    (∀ s : InputSpec Ctx, (getInputSpecOrdered s).Perm s) ∧
    (∀ (s : InputSpec Ctx) (a b : String × InputSpecProperty Ctx),
      [a, b].Sublist s → a.2.orderNumber = b.2.orderNumber →
      [a, b].Sublist (getInputSpecOrdered s)) ∧
    (∀ s₁ s₂ : InputSpec Ctx, s₁.Perm s₂ →
      (s₁.map (fun e => e.2.orderNumber)).Nodup →
      getInputSpecOrdered s₁ = getInputSpecOrdered s₂) := by
  refine ⟨?_, ?_, ?_, ?_⟩
  · intro s
    exact List.sorted_insertionSort specOrderLE s
  · intro s
    exact List.perm_insertionSort specOrderLE s
  · intro s a b hsub heq
    exact List.pair_sublist_insertionSort (le_of_eq heq) hsub
  · intro s₁ s₂ hperm hnodup
    have sortedLT : ∀ (s : InputSpec Ctx),
        (s.map (fun e => e.2.orderNumber)).Nodup →
        List.Sorted specOrderLT (getInputSpecOrdered s) := by
      intro s hnd
      have hnd' : (getInputSpecOrdered s).Pairwise
          (fun a b : String × InputSpecProperty Ctx =>
            a.2.orderNumber ≠ b.2.orderNumber) := by
        have : ((getInputSpecOrdered s).map
            (fun e => e.2.orderNumber)).Nodup :=
          (((List.perm_insertionSort specOrderLE s).map
            (fun e => e.2.orderNumber)).nodup_iff).mpr hnd
        exact (List.pairwise_map).mp this
      have hle : (getInputSpecOrdered s).Pairwise specOrderLE :=
        List.sorted_insertionSort specOrderLE s
      exact (hle.and hnd').imp (fun h => lt_of_le_of_ne h.1 h.2)
    have hnodup₂ : (s₂.map (fun e => e.2.orderNumber)).Nodup :=
      ((hperm.map (fun e => e.2.orderNumber)).nodup_iff).mp hnodup
    have hp : (getInputSpecOrdered s₁).Perm (getInputSpecOrdered s₂) :=
      ((List.perm_insertionSort specOrderLE s₁).trans hperm).trans
        (List.perm_insertionSort specOrderLE s₂).symm
    exact List.eq_of_perm_of_sorted hp (sortedLT s₁ hnodup)
      (sortedLT s₂ hnodup₂)

/-- Witness for the C1 theorem: a concrete state on which the hypotheses
hold, with the reset step computed. -/
theorem c1_witness :
    collectInput (fun _ => "p") ([] : InputSpec Unit)
        (CLIArgsInfo.snapshot [("a", "x")] []) [("k", "v")]
        (fun _ => some ()) =
      Except.ok (PassState.mk [("k", "v")] (some ()) [] [] 1) ∧
    buildValidatedInputStep (fun _ => "p") ([] : InputSpec Unit)
        (fun _ => some ())
        (fun _ => (ValidationResult.internalError "boom" :
          ValidationResult (List (String × Value))))
        (LoopState.mk (CLIArgsInfo.snapshot [("a", "x")] []) [("k", "v")]) =
      Except.ok (StepResult.next
        (LoopState.mk (CLIArgsInfo.snapshot [] []) [])
        [Event.internalErrorPrinted "boom"] 1) :=
  ⟨rfl,
    c1_amended_structural_reset_to_empty_snapshot (fun _ => "p") []
      (fun _ => some ())
      (fun _ => ValidationResult.internalError "boom")
      (LoopState.mk (CLIArgsInfo.snapshot [("a", "x")] []) [("k", "v")])
      (PassState.mk [("k", "v")] (some ()) [] [] 1) "boom" rfl rfl⟩

/-- Witness for the C2 theorem: with the closed set containing the field,
the concrete stage resolves to the prompted value with the notice. -/
theorem c2_witness :
    Except.map (fun st => (st.values, st.cliArgsSet, st.events))
      (processStage (fun _ => "p")
        (fun (_ : List (String × Value)) => some ())
        (CLIArgsInfo.closed ["a"]) (PassState.mk [] (some ()) [] [] 1)
        ("a", InputSpecProperty.validationSpec 0 ⟨fun _ => true⟩ "aQ" true
          none)) =
    Except.ok ([("a", "p")], [],
      [Event.notReusingCLI "a", Event.promptInvoked "a"]) := by
  obtain ⟨st', h1, h2, h3, h4⟩ :=
    c2_no_cli_reuse_after_rejection (fun _ => "p") (fun _ => some ()) ["a"]
      (PassState.mk [] (some ()) [] [] 1) "a" 0 ⟨fun _ => true⟩ "aQ" true
      none (by decide) rfl (Or.inl rfl)
  rw [h1]
  simp [Except.map, h2, h3, h4, promptValueFromUser]

/-- Witness for the C3 amended theorem: a concrete inapplicable stage
leaves the pass state untouched. -/
theorem c3_witness :
    processStage (fun _ => "p") (fun (_ : List (String × Value)) => some ())
      (CLIArgsInfo.snapshot [] []) (PassState.mk [] (some ()) [] [] 1)
      ("b", InputSpecProperty.validationSpec 0 ⟨fun _ => true⟩ "bQ" false
        (some ⟨"cond-desc", fun _ => false⟩)) =
    Except.ok (PassState.mk [] (some ()) [] [] 1) :=
  c3_amended_inapplicable_stage_skipped_silently (fun _ => "p")
    (fun _ => some ()) (CLIArgsInfo.snapshot [] [])
    (PassState.mk [] (some ()) [] [] 1) "b" 0 ⟨fun _ => true⟩ "bQ" false
    ⟨"cond-desc", fun _ => false⟩ () rfl rfl rfl

/-- Witness for the C5 amended theorem: a concrete pass with the context
present from the start makes exactly one provider call. -/
theorem c5_witness :
    (fun (_ : List (String × Value)) => some ()) ([] : List (String × Value))
      = some () ∧
    collectInput (fun _ => "p")
        [("a", InputSpecProperty.validationSpec 0 ⟨fun _ => true⟩ "aQ" false
          none)]
        (CLIArgsInfo.snapshot [] []) []
        (fun (_ : List (String × Value)) => some ()) =
      Except.ok
        (PassState.mk [("a", "p")] (some ()) [] [Event.promptInvoked "a"] 1) ∧
    (PassState.mk [("a", "p")] (some ()) [] [Event.promptInvoked "a"] 1 :
        PassState Unit).dynCalls = 1 ∧
    (PassState.mk [("a", "p")] (some ()) [] [Event.promptInvoked "a"] 1 :
        PassState Unit).dynCtx = some () :=
  ⟨rfl, rfl,
    c5_amended_one_provider_call_when_present (fun _ => "p")
      [("a", InputSpecProperty.validationSpec 0 ⟨fun _ => true⟩ "aQ" false
        none)]
      (CLIArgsInfo.snapshot [] []) [] (fun _ => some ()) ()
      (PassState.mk [("a", "p")] (some ()) [] [Event.promptInvoked "a"] 1)
      rfl rfl⟩

/-- Witness for the C6 theorem: a concrete flagged stage takes the
schema-valid CLI value Ada without prompting. -/
theorem c6_witness :
    Except.map (fun st => (st.values, st.cliArgsSet, st.events))
      (processStage (fun _ => "p")
        (fun (_ : List (String × Value)) => some ())
        (CLIArgsInfo.snapshot [("n", "Ada")] [])
        (PassState.mk [] (some ()) [] [] 1)
        ("n", InputSpecProperty.validationSpec 0 ⟨fun _ => true⟩ "nQ" true
          none)) =
    Except.ok ([("n", "Ada")], ["n"], [Event.usingCLIValue "n" "Ada"]) := by
  obtain ⟨st', h1, h2, h3, h4, h5⟩ :=
    c6_cli_precedence (fun _ => "p") (fun _ => some ()) [("n", "Ada")] []
      (PassState.mk [] (some ()) [] [] 1) "n" 0 ⟨fun _ => true⟩ "nQ" none
      "Ada" rfl (Or.inl rfl) rfl rfl
  rw [h1]
  simp [Except.map, h2, h3, h4]

/-- Witness for the C7 theorem: a concrete flagged stage with no CLI
value degrades to a single prompt without throwing. -/
theorem c7_witness :
    handleStageStateMutation (fun _ => "p") "n" ⟨fun _ => true⟩ "nQ" true
        (none : Option (ConditionWithDescription Unit))
        (CLIArgsInfo.snapshot [] []) (some ()) =
      Except.ok (some ⟨"p", false⟩, [Event.promptInvoked "n"]) ∧
    ([Event.promptInvoked "n"] : List Event).count
      (Event.promptInvoked "n") = 1 :=
  ⟨(c7_fallback_prompts_once (fun _ => "p") "n" ⟨fun _ => true⟩ "nQ" true
      none (some ()) [] [] (Or.inl rfl) rfl).1,
    (c7_fallback_prompts_once (fun _ => "p") "n" ⟨fun _ => true⟩ "nQ" true
      none (some ()) [] [] (Or.inl rfl) rfl).2.1⟩

/-- Witness for the C9 theorem: permuting the insertion order of a
two-stage specification with distinct order numbers does not change the
ordered stage sequence. -/
theorem c9_witness :
    ([("a", InputSpecProperty.messageSpec 1 (StageMessage.literal "m")),
      ("b", InputSpecProperty.messageSpec 0 (StageMessage.literal "k"))] :
        InputSpec Unit).Perm
      [("b", InputSpecProperty.messageSpec 0 (StageMessage.literal "k")),
       ("a", InputSpecProperty.messageSpec 1 (StageMessage.literal "m"))] ∧
    getInputSpecOrdered
      ([("a", InputSpecProperty.messageSpec 1 (StageMessage.literal "m")),
        ("b", InputSpecProperty.messageSpec 0 (StageMessage.literal "k"))] :
          InputSpec Unit) =
    getInputSpecOrdered
      [("b", InputSpecProperty.messageSpec 0 (StageMessage.literal "k")),
       ("a", InputSpecProperty.messageSpec 1 (StageMessage.literal "m"))] := by
  obtain ⟨_, _, _, h4⟩ := @c9_stage_ordering Unit
  refine ⟨?_, ?_⟩
  · exact List.Perm.swap
      ("b", InputSpecProperty.messageSpec 0 (StageMessage.literal "k"))
      ("a", InputSpecProperty.messageSpec 1 (StageMessage.literal "m")) []
  · exact h4 _ _
      (List.Perm.swap
        ("b", InputSpecProperty.messageSpec 0 (StageMessage.literal "k"))
        ("a", InputSpecProperty.messageSpec 1 (StageMessage.literal "m")) [])
      (by decide)

/-- Witness for the C10 theorem: a concrete field-errors step closes the
record over the pass's claims, and a concrete pass against a closed
record claims nothing. -/
theorem c10_witness :
    buildValidatedInputStep (fun _ => "p")
        [("a", InputSpecProperty.validationSpec 0 ⟨fun _ => true⟩ "aQ" true
          none)]
        (fun (_ : List (String × Value)) => some ())
        (fun _ => (ValidationResult.fieldErrors [("a", "no")] :
          ValidationResult (List (String × Value))))
        (LoopState.mk (CLIArgsInfo.snapshot [("a", "x")] []) []) =
      Except.ok (StepResult.next
        (LoopState.mk (CLIArgsInfo.closed ["a"]) [])
        [Event.usingCLIValue "a" "x", Event.fieldErrorPrinted "a" "no"] 1) ∧
    (PassState.mk [("a", "p")] (some ()) []
        [Event.notReusingCLI "a", Event.promptInvoked "a"] 1 :
      PassState Unit).cliArgsSet = [] := by
  have h := @c10_closed_record_suppresses_cli Unit (List (String × Value))
    (fun _ => "p")
    [("a", InputSpecProperty.validationSpec 0 ⟨fun _ => true⟩ "aQ" true
      none)]
    (fun _ => some ())
  refine ⟨?_, ?_⟩
  · exact h.1
      (fun _ => ValidationResult.fieldErrors [("a", "no")])
      (LoopState.mk (CLIArgsInfo.snapshot [("a", "x")] []) [])
      [("a", "x")] []
      (PassState.mk [("a", "x")] (some ()) ["a"]
        [Event.usingCLIValue "a" "x"] 1)
      [("a", "no")] rfl rfl rfl
  · exact (h.2 ["a"] []
      (PassState.mk [("a", "p")] (some ()) []
        [Event.notReusingCLI "a", Event.promptInvoked "a"] 1) rfl).1

end MeowInquirer
